import Mathlib

/-!
The in-memory user registry of honeycomb, examples/03-small-service.

A shallow embedding of `internal/user/user.go`, `internal/user/storage.go`,
`internal/user/handler.go`, `internal/user/router.go` and of the wiring in `main.go`.

Conventions of the embedding.

* A Go `string` is a Lean `String`, read as its sequence of runes.
* A `time.Time` is an integer instant; `After` is the strict order on instants.
  `time.Now()` is an input of `Create`.
* A Go method with a pointer receiver on `Storage` takes the registry state and,
  when it writes, returns the next state.  The mutex is not part of the state:
  every method body runs from `Lock` to `Unlock` without giving the lock up.
* A `(*User, error)` result is a pair of options, `none` standing for `nil`.
* `map[string]*User` is an association list; `mapSet` is the assignment
  `m[k] = v` and `mapGet` the lookup `v, ok := m[k]`.
* `nextID` is a natural number.  The counter moves only in the branch of `Create`
  that also stores one more entry under a fresh key, so it stays one above
  `len(users)`, and a Go map cannot hold as many entries as an `int` can count.
* Two things are decided by the Go runtime and library, not by this repository:
  the order in which `range` visits a map, and the permutation `sort.Slice`
  leaves behind.  Both are fields of `Runtime`, and the theorems about `List`
  hold for every runtime that meets the documented contract.
-/

namespace Honeycomb

/-! ## Library functions used by the package -/

/-- An instant, as read from the clock. -/
abbrev Time := Int

/-- Method `After` of `time.Time`: `t.After(u)` reports whether `t` is later than `u`. -/
def After (t u : Time) : Bool := decide (u < t)

/-- Function `unicode.IsSpace`: the Latin-1 white space and the other runes with the
`White_Space` property. -/
def isSpace (c : Char) : Bool :=
  let r := c.toNat
  if r ≤ 0xFF then
    r == 0x09 || r == 0x0A || r == 0x0B || r == 0x0C || r == 0x0D || r == 0x20
      || r == 0x85 || r == 0xA0
  else
    r == 0x1680 || (0x2000 ≤ r && r ≤ 0x200A) || r == 0x2028 || r == 0x2029
      || r == 0x202F || r == 0x205F || r == 0x3000

/-- Function `strings.TrimSpace`: the string without its leading and trailing white space. -/
def TrimSpace (s : String) : String :=
  String.mk ((s.data.dropWhile isSpace).reverse.dropWhile isSpace).reverse

/-- Function `strings.Contains`: whether `substr` occurs somewhere in `s`. -/
def Contains (s substr : String) : Bool :=
  s.data.tails.any (fun t => substr.data.isPrefixOf t)

/-- The call `fmt.Sprintf("user_%d", n)` for a counter value `n`. -/
def SprintfUser (n : Nat) : String := "user_" ++ toString n

/-! ## user.go -/

/-- The struct `User`. -/
structure User where
  ID : String
  Name : String
  Email : String
  CreatedAt : Time
  deriving DecidableEq, Repr

/-- Method `Validate`: `none` is the `nil` error, `some msg` is `errors.New(msg)`. -/
def User.Validate (u : User) : Option String :=
  if TrimSpace u.Name == "" then
    some "name is required"
  else if TrimSpace u.Email == "" then
    some "email is required"
  else if !Contains u.Email "@" then
    some "invalid email format"
  else
    none

/-! ## storage.go -/

/-- The assignment `m[k] = v` on a map: an entry under `k` is overwritten in place,
otherwise a new entry is added. -/
def mapSet (m : List (String × User)) (k : String) (v : User) : List (String × User) :=
  match m with
  | [] => [(k, v)]
  | (k1, v1) :: rest => if k1 = k then (k, v) :: rest else (k1, v1) :: mapSet rest k v

/-- The lookup `v, ok := m[k]`. -/
def mapGet (m : List (String × User)) (k : String) : Option User :=
  match m with
  | [] => none
  | (k1, v1) :: rest => if k1 = k then some v1 else mapGet rest k

/-- The struct `Storage` without its mutex. -/
structure Storage where
  users : List (String × User)
  nextID : Nat
  deriving DecidableEq, Repr

/-- Function `NewStorage`: an empty map and the counter at 1. -/
def NewStorage : Storage := { users := [], nextID := 1 }

/-- Method `Create`.  The candidate takes its id from the counter and its time stamp from
the clock; a candidate that fails `Validate` is returned as `(nil, err)` before the map
and the counter are touched; otherwise the candidate is stored under its id and the
counter is incremented. -/
def Storage.Create (s : Storage) (name email : String) (now : Time) :
    (Option User × Option String) × Storage :=
  let user : User :=
    { ID := SprintfUser s.nextID, Name := name, Email := email, CreatedAt := now }
  match user.Validate with
  | some err => ((none, some err), s)
  | none => ((some user, none), { users := mapSet s.users user.ID user, nextID := s.nextID + 1 })

/-- What the Go runtime and the standard library decide for `List`. -/
structure Runtime where
  /-- The order in which `for _, user := range m` visits the entries of `m`. -/
  rangeOrder : List (String × User) → List (String × User)
  /-- The slice `sort.Slice` leaves behind for a `less` function and a slice. -/
  sortSlice : (User → User → Bool) → List User → List User

/-- Method `List`: the values of the map, collected in range order, then sorted with
`less(i, j) = users[i].CreatedAt.After(users[j].CreatedAt)`. -/
def Storage.List (rt : Runtime) (s : Storage) : List User :=
  let users := (rt.rangeOrder s.users).foldl (fun acc e => acc ++ [e.2]) []
  rt.sortSlice (fun a b => After a.CreatedAt b.CreatedAt) users

/-- Method `GetByID`. -/
def Storage.GetByID (s : Storage) (id : String) : Option User × Option String :=
  match mapGet s.users id with
  | none => (none, some ("user not found: " ++ id))
  | some user => (some user, none)

/-- Method `Count`: `len(s.users)`. -/
def Storage.Count (s : Storage) : Nat := s.users.length

/-! ## handler.go, router.go and main.go -/

/-- An incoming request: its method, its path, and what
`json.NewDecoder(r.Body).Decode(&req)` makes of its body (`none` when decoding returns
an error, otherwise the fields `name` and `email`). -/
structure Request where
  Method : String
  Path : String
  Decoded : Option (String × String)
  deriving DecidableEq, Repr

/-- What a handler writes as the body of the response. -/
inductive Body where
  | text (msg : String)
  | usersJSON (users : List User) (total : Nat)
  | userJSON (user : Option User)
  | empty
  deriving DecidableEq, Repr

/-- The response written to the `http.ResponseWriter`. -/
structure Response where
  Status : Nat
  Payload : Body
  deriving DecidableEq, Repr

/-- What a handler reads from outside the registry while it serves one request: the
runtime, the clock, and whether the JSON encoder returns an error. -/
structure Env where
  rt : Runtime
  now : Time
  encodeFails : Bool

/-- A handler function: it serves a request against a registry state and leaves a
response and the next registry state. -/
abbrev HandlerFunc := Env → Request → Storage → Response × Storage

/-- Function `http.Error`: a plain-text response with the given status. -/
def httpError (msg : String) (code : Nat) : Response := { Status := code, Payload := Body.text msg }

/-- Method `Handler.List`: `GET /users`. -/
def Handler.List : HandlerFunc := fun env _r s =>
  let users := Storage.List env.rt s
  if env.encodeFails then (httpError "Internal server error" 500, s)
  else ({ Status := 200, Payload := Body.usersJSON users users.length }, s)

/-- Method `Handler.Create`: `POST /users`. -/
def Handler.Create : HandlerFunc := fun env r s =>
  match r.Decoded with
  | none => (httpError "Invalid request body" 400, s)
  | some (name, email) =>
    let res := s.Create name email env.now
    match res.1.2 with
    | some err => (httpError err 400, res.2)
    | none =>
      ({ Status := 201,
         Payload := if env.encodeFails then Body.empty else Body.userJSON res.1.1 }, res.2)

/-- An `http.ServeMux` holding patterns without a method, a host or a trailing slash:
each pattern names one path. -/
structure ServeMux where
  routes : List (String × HandlerFunc)

/-- Function `http.NewServeMux`. -/
def NewServeMux : ServeMux := { routes := [] }

/-- Method `HandleFunc` of the mux. -/
def ServeMux.HandleFunc (mux : ServeMux) (pattern : String) (h : HandlerFunc) : ServeMux :=
  { routes := mux.routes ++ [(pattern, h)] }

/-- Method `ServeHTTP` of the mux: the handler registered for the path of the request,
and `404 page not found` when there is none. -/
def ServeMux.ServeHTTP (mux : ServeMux) : HandlerFunc := fun env r s =>
  match mux.routes.find? (fun e => e.1 == r.Path) with
  | some e => e.2 env r s
  | none => (httpError "404 page not found" 404, s)

/-- Method `Handler.RegisterRoutes`: one pattern, `/users`, whose handler switches on the
method of the request. -/
def Handler.RegisterRoutes (mux : ServeMux) : ServeMux :=
  mux.HandleFunc "/users" (fun env r s =>
    if r.Method = "GET" then Handler.List env r s
    else if r.Method = "POST" then Handler.Create env r s
    else (httpError "Method not allowed" 405, s))

/-- Function `NewRouter` of router.go: a second mux, which `main` does not use. -/
def NewRouter : ServeMux :=
  (NewServeMux.HandleFunc "/users" Handler.List).HandleFunc "/users/create" Handler.Create

/-- The mux that `main` passes to `http.ListenAndServe`. -/
def mainMux : ServeMux := Handler.RegisterRoutes NewServeMux

/-- The registry `main` starts the server with: two users created at start-up. -/
def mainStorage (t1 t2 : Time) : Storage :=
  ((NewStorage.Create "Alice" "alice@example.com" t1).2.Create "Bob" "bob@example.com" t2).2

/-! ## Sequences of calls -/

/-- The arguments of one call of `Create`, with the clock reading it takes. -/
structure CreateCall where
  name : String
  email : String
  now : Time
  deriving DecidableEq, Repr

/-- The results of a sequence of `Create` calls, in call order, and the registry state
after the last one. -/
def runCreates (s : Storage) : List CreateCall → List (Option User × Option String) × Storage
  | [] => ([], s)
  | c :: cs =>
    let r := s.Create c.name c.email c.now
    let rest := runCreates r.2 cs
    (r.1 :: rest.1, rest.2)

/-- The users returned by the successful calls of a sequence, in call order. -/
def created (rs : List (Option User × Option String)) : List User :=
  rs.filterMap (fun r => r.1)

/-! ## The contract of the runtime -/

/-- What the documentation of `sort.Interface` asks of a `less` function: it is strict,
transitive, and so is its complement. -/
def IsStrictWeak (less : User → User → Bool) : Prop :=
  (∀ a, less a a = false) ∧
  (∀ a b c, less a b = true → less b c = true → less a c = true) ∧
  (∀ a b c, less a b = false → less b c = false → less a c = false)

/-- The contract of the runtime: `range` visits every entry of a map once, in some
order, and `sort.Slice` permutes the slice so that no element is `less` than one
before it.  Nothing is promised about the order of elements that compare equal. -/
def Runtime.Conforms (rt : Runtime) : Prop :=
  (∀ m, (rt.rangeOrder m).Perm m) ∧
  (∀ less xs, IsStrictWeak less →
    (rt.sortSlice less xs).Perm xs ∧
    (rt.sortSlice less xs).Pairwise (fun a b => less b a = false))

/-- A runtime that meets the contract: `range` visits the entries in stored order, and
the sort is an insertion sort. -/
def refRuntime : Runtime where
  rangeOrder := fun m => m
  sortSlice := fun less xs => xs.insertionSort (fun a b => less b a = false)

/-- A second runtime that meets the contract: `range` visits the entries backwards. -/
def revRuntime : Runtime where
  rangeOrder := fun m => m.reverse
  sortSlice := fun less xs => xs.insertionSort (fun a b => less b a = false)

/-! ## Vocabulary of the statements -/

/-- Whether a string is empty or holds white space only. -/
def isBlank (s : String) : Bool := s.data.all isSpace

/-- The value of a string of decimal digits. -/
def digitsValue (cs : List Char) (acc : Nat) : Nat :=
  cs.foldl (fun a c => a * 10 + (c.toNat - 48)) acc

/-- Every key of the map is an id formatted from a counter value below `nextID`. -/
def Storage.KeysBelow (s : Storage) : Prop :=
  ∀ e ∈ s.users, ∃ n, n < s.nextID ∧ e.1 = SprintfUser n

/-- Three valid calls with increasing clock readings, and an invalid one in between. -/
def demoCalls : List CreateCall :=
  [⟨"U1", "u1@example.com", 10⟩, ⟨"U2", "u2@example.com", 20⟩, ⟨"U2b", "nodomain", 25⟩,
   ⟨"U3", "u3@example.com", 30⟩]

/-! ## Lemmas on the library functions -/

theorem dropWhile_eq_nil_iff_all (p : Char → Bool) (l : List Char) :
    l.dropWhile p = [] ↔ ∀ c ∈ l, p c = true := by
  induction l with
  | nil => simp
  | cons a l ih =>
    by_cases h : p a = true
    · simp [List.dropWhile_cons, h, ih]
    · simp [List.dropWhile_cons, h]

theorem trimSpace_eq_empty_iff (s : String) : TrimSpace s = "" ↔ isBlank s = true := by
  unfold TrimSpace isBlank
  constructor
  · intro h
    have h1 : ((s.data.dropWhile isSpace).reverse.dropWhile isSpace).reverse = [] := by
      have := congrArg String.data h
      simpa using this
    have h2 : (s.data.dropWhile isSpace).reverse.dropWhile isSpace = [] := by
      simpa using h1
    rw [dropWhile_eq_nil_iff_all] at h2
    have h3 : s.data.dropWhile isSpace = [] := by
      cases hd : s.data.dropWhile isSpace with
      | nil => rfl
      | cons a l =>
        have hna := List.head_dropWhile_not isSpace s.data (by rw [hd]; simp)
        have ha : isSpace a = true := h2 a (by rw [hd]; simp)
        simp [hd, ha] at hna
    rw [dropWhile_eq_nil_iff_all] at h3
    simpa [List.all_eq_true] using h3
  · intro h
    have h3 : s.data.dropWhile isSpace = [] := by
      rw [dropWhile_eq_nil_iff_all]
      simpa [List.all_eq_true] using h
    rw [h3]
    rfl

theorem any_tails_singleton (c : Char) (l : List Char) :
    (l.tails.any fun t => [c].isPrefixOf t) = true ↔ c ∈ l := by
  induction l with
  | nil => simp [List.isPrefixOf]
  | cons a l ih =>
    have hstep : ((a :: l).tails.any fun t => [c].isPrefixOf t)
        = ([c].isPrefixOf (a :: l) || (l.tails.any fun t => [c].isPrefixOf t)) := by
      simp [List.tails]
    rw [hstep, Bool.or_eq_true, ih]
    by_cases h : c = a
    · subst h
      simp [List.isPrefixOf]
    · have h2 : (c == a) = false := by
        simp only [beq_eq_false_iff_ne, ne_eq]
        exact h
      simp [List.isPrefixOf, h2, h]

theorem contains_at_iff (s : String) : Contains s "@" = true ↔ '@' ∈ s.data := by
  unfold Contains
  have hd : ("@" : String).data = ['@'] := rfl
  rw [hd]
  exact any_tails_singleton '@' s.data

theorem digitChar_value (m : Nat) (h : m < 10) : (Nat.digitChar m).toNat - 48 = m := by
  interval_cases m <;> rfl

theorem digitsValue_toDigitsCore (fuel : Nat) :
    ∀ (n : Nat) (ds : List Char) (a : Nat), n < fuel →
      ∃ k, digitsValue (Nat.toDigitsCore 10 fuel n ds) a = digitsValue ds (a * 10 ^ k + n) := by
  induction fuel with
  | zero => intro n ds a h; omega
  | succ fuel ih =>
    intro n ds a h
    unfold Nat.toDigitsCore
    by_cases h0 : n / 10 = 0
    · refine ⟨1, ?_⟩
      have hlt : n < 10 := by omega
      simp only [h0, if_true]
      simp only [digitsValue, List.foldl_cons]
      rw [digitChar_value _ (Nat.mod_lt _ (by decide)), Nat.mod_eq_of_lt hlt]
      simp
    · simp only [h0, if_false]
      obtain ⟨k, hk⟩ := ih (n / 10) (Nat.digitChar (n % 10) :: ds) a (by omega)
      refine ⟨k + 1, ?_⟩
      rw [hk]
      simp only [digitsValue, List.foldl_cons]
      rw [digitChar_value _ (Nat.mod_lt _ (by decide))]
      congr 1
      rw [pow_succ]
      have := Nat.div_add_mod n 10
      nlinarith [this]

theorem digitsValue_toString (n : Nat) : digitsValue (toString n).data 0 = n := by
  have h : (toString n).data = Nat.toDigits 10 n := rfl
  rw [h, Nat.toDigits]
  obtain ⟨k, hk⟩ := digitsValue_toDigitsCore (n + 1) n [] 0 (by omega)
  rw [hk]
  simp [digitsValue]

theorem sprintfUser_injective (a b : Nat) (h : SprintfUser a = SprintfUser b) : a = b := by
  unfold SprintfUser at h
  have h1 := congrArg String.data h
  simp only [String.data_append, List.append_cancel_left_eq] at h1
  have h2 := congrArg (fun l => digitsValue l 0) h1
  simpa [digitsValue_toString] using h2

/-! ## Lemmas on the map -/

theorem mapSet_fresh (m : List (String × User)) (k : String) (v : User)
    (h : ∀ e ∈ m, e.1 ≠ k) : mapSet m k v = m ++ [(k, v)] := by
  induction m with
  | nil => rfl
  | cons e m ih =>
    obtain ⟨k1, v1⟩ := e
    have hk : k1 ≠ k := h (k1, v1) (List.mem_cons_self _ _)
    have hm : ∀ e ∈ m, e.1 ≠ k := fun e he => h e (List.mem_cons_of_mem _ he)
    simp [mapSet, hk, ih hm]

theorem mapGet_eq_some_iff (m : List (String × User)) (k : String) (v : User)
    (hnd : (m.map Prod.fst).Nodup) : mapGet m k = some v ↔ (k, v) ∈ m := by
  induction m with
  | nil => simp [mapGet]
  | cons e m ih =>
    obtain ⟨k1, v1⟩ := e
    simp only [List.map_cons, List.nodup_cons] at hnd
    by_cases hk : k1 = k
    · subst hk
      simp only [mapGet, if_true, Option.some.injEq, List.mem_cons, Prod.mk.injEq, true_and]
      constructor
      · intro h; exact Or.inl h.symm
      · rintro (h | h)
        · exact h.symm
        · exact absurd (List.mem_map_of_mem Prod.fst h) hnd.1
    · simp only [mapGet, hk, if_false, List.mem_cons, Prod.mk.injEq]
      rw [ih hnd.2]
      constructor
      · intro h; exact Or.inr h
      · rintro (h | h)
        · exact absurd h.1.symm hk
        · exact h

theorem foldl_collect_values (m : List (String × User)) (acc : List User) :
    m.foldl (fun acc e => acc ++ [e.2]) acc = acc ++ m.map Prod.snd := by
  induction m generalizing acc with
  | nil => simp
  | cons e m ih => simp [List.foldl_cons, ih]

/-! ## Lemmas on `Create` and on sequences of calls -/

theorem create_cases (s : Storage) (name email : String) (now : Time) :
    (∃ err, s.Create name email now = ((none, some err), s) ∧
      User.Validate
        { ID := SprintfUser s.nextID, Name := name, Email := email, CreatedAt := now }
        = some err) ∨
    (s.Create name email now =
      ((some { ID := SprintfUser s.nextID, Name := name, Email := email, CreatedAt := now },
        none),
       { users := mapSet s.users (SprintfUser s.nextID)
           { ID := SprintfUser s.nextID, Name := name, Email := email, CreatedAt := now },
         nextID := s.nextID + 1 }) ∧
      User.Validate
        { ID := SprintfUser s.nextID, Name := name, Email := email, CreatedAt := now }
        = none) := by
  cases h : User.Validate
      { ID := SprintfUser s.nextID, Name := name, Email := email, CreatedAt := now } with
  | none =>
    right
    exact ⟨by simp only [Storage.Create, h], rfl⟩
  | some err =>
    left
    exact ⟨err, by simp only [Storage.Create, h], rfl⟩

theorem keysBelow_fresh (s : Storage) (h : s.KeysBelow) :
    ∀ e ∈ s.users, e.1 ≠ SprintfUser s.nextID := by
  intro e he heq
  obtain ⟨n, hn, hen⟩ := h e he
  rw [hen] at heq
  have := sprintfUser_injective _ _ heq
  omega

theorem newStorage_keysBelow : NewStorage.KeysBelow := by
  intro e he
  simp [NewStorage] at he

/-- The shape of a run: each result is either a user with no error or an error with no
user; the users come with the ids of successive counter values; every one passes
`Validate`; and the map grows by exactly the created users, in call order. -/
theorem runCreates_shape (calls : List CreateCall) :
    ∀ s : Storage, s.KeysBelow →
      (runCreates s calls).2.KeysBelow ∧
      (runCreates s calls).2.users
        = s.users ++ (created (runCreates s calls).1).map (fun u => (u.ID, u)) ∧
      (runCreates s calls).2.nextID = s.nextID + (created (runCreates s calls).1).length ∧
      (created (runCreates s calls).1).map User.ID
        = (List.range (created (runCreates s calls).1).length).map
            (fun i => SprintfUser (s.nextID + i)) ∧
      (∀ u ∈ created (runCreates s calls).1, u.Validate = none) ∧
      (∀ r ∈ (runCreates s calls).1,
        (∃ u, r = (some u, none)) ∨ (∃ err, r = (none, some err))) := by
  induction calls with
  | nil =>
    intro s hs
    simp [runCreates, created, hs]
  | cons c cs ih =>
    intro s hs
    rcases create_cases s c.name c.email c.now with ⟨err, hc, _⟩ | ⟨hc, hv⟩
    · obtain ⟨h1, h2, h3, h4, h5, h6⟩ := ih s hs
      have hrun : runCreates s (c :: cs)
          = ((none, some err) :: (runCreates s cs).1, (runCreates s cs).2) := by
        simp [runCreates, hc]
      rw [hrun]
      have hcr : created ((none, some err) :: (runCreates s cs).1)
          = created (runCreates s cs).1 := by
        simp [created]
      simp only [hcr]
      refine ⟨h1, h2, h3, h4, h5, ?_⟩
      intro r hr
      rcases List.mem_cons.1 hr with h | h
      · exact Or.inr ⟨err, h⟩
      · exact h6 r h
    · set u : User :=
        { ID := SprintfUser s.nextID, Name := c.name, Email := c.email, CreatedAt := c.now }
        with hu
      set s1 : Storage := { users := mapSet s.users (SprintfUser s.nextID) u,
                            nextID := s.nextID + 1 } with hs1
      have hset : mapSet s.users (SprintfUser s.nextID) u
          = s.users ++ [(SprintfUser s.nextID, u)] := mapSet_fresh _ _ _ (keysBelow_fresh s hs)
      have hs1k : s1.KeysBelow := by
        intro e he
        simp only [hs1, hset, List.mem_append, List.mem_singleton] at he
        rcases he with he | he
        · obtain ⟨n, hn, hen⟩ := hs e he
          exact ⟨n, by simp only [hs1]; omega, hen⟩
        · exact ⟨s.nextID, by simp only [hs1]; omega, by rw [he]⟩
      obtain ⟨h1, h2, h3, h4, h5, h6⟩ := ih s1 hs1k
      have hrun : runCreates s (c :: cs)
          = ((some u, none) :: (runCreates s1 cs).1, (runCreates s1 cs).2) := by
        simp [runCreates, hc]
      rw [hrun]
      have hcr : created ((some u, none) :: (runCreates s1 cs).1)
          = u :: created (runCreates s1 cs).1 := by
        simp [created]
      simp only [hcr]
      refine ⟨h1, ?_, ?_, ?_, ?_, ?_⟩
      · rw [h2]
        simp [hs1, hset, hu]
      · rw [h3]
        simp only [hs1, List.length_cons]
        omega
      · rw [List.map_cons, h4, List.length_cons, List.range_succ_eq_map, List.map_cons,
          List.map_map]
        simp only [hs1, hu, Nat.add_zero, List.cons.injEq, true_and]
        apply List.map_congr_left
        intro i _
        simp only [Function.comp]
        congr 1
        omega
      · intro v hv2
        rcases List.mem_cons.1 hv2 with h | h
        · rw [h]; exact hv
        · exact h5 v h
      · intro r hr
        rcases List.mem_cons.1 hr with h | h
        · exact Or.inl ⟨u, h⟩
        · exact h6 r h

/-- A run from `NewStorage`: the map holds exactly the created users, each under its own
id, and the ids are pairwise different. -/
theorem run_new_shape (calls : List CreateCall) :
    (runCreates NewStorage calls).2.users
      = (created (runCreates NewStorage calls).1).map (fun u => (u.ID, u)) ∧
    ((created (runCreates NewStorage calls).1).map User.ID).Nodup ∧
    (∀ u ∈ created (runCreates NewStorage calls).1, u.Validate = none) ∧
    (∀ r ∈ (runCreates NewStorage calls).1,
      (∃ u, r = (some u, none)) ∨ (∃ err, r = (none, some err))) := by
  obtain ⟨_, h2, _, h4, h5, h6⟩ := runCreates_shape calls NewStorage newStorage_keysBelow
  refine ⟨by simpa [NewStorage] using h2, ?_, h5, h6⟩
  rw [h4]
  apply List.Nodup.map _ (List.nodup_range _)
  intro a b hab
  have := sprintfUser_injective _ _ hab
  omega

theorem mem_created_iff (rs : List (Option User × Option String)) (u : User)
    (hshape : ∀ r ∈ rs, (∃ u, r = (some u, none)) ∨ (∃ err, r = (none, some err))) :
    u ∈ created rs ↔ (some u, none) ∈ rs := by
  unfold created
  rw [List.mem_filterMap]
  constructor
  · rintro ⟨r, hr, hru⟩
    rcases hshape r hr with ⟨v, hv⟩ | ⟨err, he⟩
    · subst hv
      simp only [Option.some.injEq] at hru
      subst hru
      exact hr
    · subst he
      simp at hru
  · intro h
    exact ⟨(some u, none), h, rfl⟩

theorem length_created (rs : List (Option User × Option String))
    (hshape : ∀ r ∈ rs, (∃ u, r = (some u, none)) ∨ (∃ err, r = (none, some err))) :
    (created rs).length = rs.countP (fun r => r.2.isNone) := by
  induction rs with
  | nil => rfl
  | cons r rs ih =>
    have ih2 := ih (fun x hx => hshape x (List.mem_cons_of_mem _ hx))
    rcases hshape r (List.mem_cons_self _ _) with ⟨v, hv⟩ | ⟨err, he⟩
    · subst hv
      simp only [created, List.filterMap_cons, List.length_cons, List.countP_cons,
        Option.isNone_none, if_true] at ih2 ⊢
      omega
    · subst he
      simp only [created, List.filterMap_cons, List.countP_cons, Option.isNone_some] at ih2 ⊢
      simpa using ih2

theorem validate_eq_none_iff (u : User) :
    u.Validate = none ↔
      TrimSpace u.Name ≠ "" ∧ TrimSpace u.Email ≠ "" ∧ '@' ∈ u.Email.data := by
  unfold User.Validate
  by_cases h1 : TrimSpace u.Name = ""
  · simp [h1]
  · by_cases h2 : TrimSpace u.Email = ""
    · simp [h1, h2]
    · by_cases h3 : Contains u.Email "@" = true
      · simp [h1, h2, h3, (contains_at_iff u.Email).1 h3]
      · have h4 : '@' ∉ u.Email.data := fun h => h3 ((contains_at_iff u.Email).2 h)
        simp [h1, h2, h3, h4]

/-! ## Lemmas on sorting -/

theorem after_isStrictWeak : IsStrictWeak (fun a b => After a.CreatedAt b.CreatedAt) := by
  refine ⟨?_, ?_, ?_⟩
  · intro a
    simp [After]
  · intro a b c h1 h2
    simp only [After, decide_eq_true_eq] at h1 h2 ⊢
    exact lt_trans h2 h1
  · intro a b c h1 h2
    simp only [After, decide_eq_false_iff_not, not_lt] at h1 h2 ⊢
    exact le_trans h1 h2

theorem insertionSort_conforms (less : User → User → Bool) (xs : List User)
    (h : IsStrictWeak less) :
    (xs.insertionSort (fun a b => less b a = false)).Perm xs ∧
    (xs.insertionSort (fun a b => less b a = false)).Pairwise (fun a b => less b a = false) := by
  obtain ⟨hirr, htr, hntr⟩ := h
  haveI : IsTotal User (fun a b => less b a = false) := ⟨by
    intro a b
    by_cases hba : less b a = false
    · exact Or.inl hba
    · right
      by_contra hab
      have h1 : less b a = true := by simpa using hba
      have h2 : less a b = true := by simpa using hab
      have := htr b a b h1 h2
      rw [hirr b] at this
      exact Bool.noConfusion this⟩
  haveI : IsTrans User (fun a b => less b a = false) := ⟨by
    intro a b c hab hbc
    exact hntr c b a hbc hab⟩
  exact ⟨List.perm_insertionSort _ xs, List.sorted_insertionSort _ xs⟩

theorem refRuntime_conforms : refRuntime.Conforms :=
  ⟨fun m => List.Perm.refl m, fun less xs h => insertionSort_conforms less xs h⟩

theorem revRuntime_conforms : revRuntime.Conforms :=
  ⟨fun m => List.reverse_perm m, fun less xs h => insertionSort_conforms less xs h⟩

/-- A permutation in descending order of a list in strictly descending order is that list. -/
theorem desc_perm_unique (l1 : List User) :
    ∀ l2 : List User, l1.Perm l2 →
      l1.Pairwise (fun a b => ¬ a.CreatedAt < b.CreatedAt) →
      l2.Pairwise (fun a b => b.CreatedAt < a.CreatedAt) → l1 = l2 := by
  induction l1 with
  | nil =>
    intro l2 hp _ _
    exact (List.Perm.nil_eq hp)
  | cons a t1 ih =>
    intro l2 hp h1 h2
    cases l2 with
    | nil => exact absurd hp.length_eq (by simp)
    | cons b t2 =>
      have hab : a = b := by
        by_contra hne
        have ha : a ∈ t2 := by
          have : a ∈ b :: t2 := hp.subset (List.mem_cons_self _ _)
          rcases List.mem_cons.1 this with h | h
          · exact absurd h hne
          · exact h
        have hb : b ∈ t1 := by
          have : b ∈ a :: t1 := hp.symm.subset (List.mem_cons_self _ _)
          rcases List.mem_cons.1 this with h | h
          · exact absurd h.symm hne
          · exact h
        exact (List.rel_of_pairwise_cons h1 hb) (List.rel_of_pairwise_cons h2 ha)
      subst hab
      rw [ih t2 (List.Perm.cons_inv hp) (List.Pairwise.of_cons h1) (List.Pairwise.of_cons h2)]

/-! ## The second mux -/

/-- The mux of `NewRouter`, which `main` does not serve, hands every request to `/users`
to the list handler, whatever its method. -/
theorem newRouter_users_any_method (env : Env) (r : Request) (s : Storage)
    (hpath : r.Path = "/users") :
    NewRouter.ServeHTTP env r s = Handler.List env r s := by
  simp [NewRouter, ServeMux.HandleFunc, ServeMux.ServeHTTP, NewServeMux, hpath]

/-! ## The properties of the registry -/

/-- Claim C1: in a sequence of `Create` calls on a registry from `NewStorage`, with valid
and invalid arguments mixed, the user returned by a successful call has an ID different
from the ID of the user returned by every earlier successful call. -/
theorem create_ids_unique (calls : List CreateCall) (i j : Nat) (u v : User)
    (hij : i < j)
    (hi : (runCreates NewStorage calls).1[i]? = some (some u, none))
    (hj : (runCreates NewStorage calls).1[j]? = some (some v, none)) :
    v.ID ≠ u.ID := by
  obtain ⟨_, hnd, _, _⟩ := run_new_shape calls
  have hpw : (runCreates NewStorage calls).1.Pairwise
      (fun r1 r2 => ∀ a ∈ r1.1, ∀ b ∈ r2.1, a.ID ≠ b.ID) := by
    have h1 : (created (runCreates NewStorage calls).1).Pairwise
        (fun a b => a.ID ≠ b.ID) := List.pairwise_map.1 hnd
    exact List.pairwise_filterMap.1 h1
  obtain ⟨hi1, hi2⟩ := List.getElem?_eq_some.1 hi
  obtain ⟨hj1, hj2⟩ := List.getElem?_eq_some.1 hj
  have := (List.pairwise_iff_getElem.1 hpw) i j hi1 hj1 hij
  rw [hi2, hj2] at this
  exact fun h => this u rfl v rfl h.symm

theorem create_ids_unique_witness :
    (runCreates NewStorage
        [⟨"Alice", "alice@example.com", 10⟩, ⟨"", "x@y", 11⟩, ⟨"Bob", "bob@example.com", 12⟩]).1[0]?
      = some (some ⟨"user_1", "Alice", "alice@example.com", 10⟩, none) ∧
    (runCreates NewStorage
        [⟨"Alice", "alice@example.com", 10⟩, ⟨"", "x@y", 11⟩, ⟨"Bob", "bob@example.com", 12⟩]).1[2]?
      = some (some ⟨"user_2", "Bob", "bob@example.com", 12⟩, none) ∧
    (⟨"user_2", "Bob", "bob@example.com", 12⟩ : User).ID
      ≠ (⟨"user_1", "Alice", "alice@example.com", 10⟩ : User).ID :=
  ⟨by decide, by decide,
   create_ids_unique
     [⟨"Alice", "alice@example.com", 10⟩, ⟨"", "x@y", 11⟩, ⟨"Bob", "bob@example.com", 12⟩]
     0 2 ⟨"user_1", "Alice", "alice@example.com", 10⟩ ⟨"user_2", "Bob", "bob@example.com", 12⟩
     (by decide) (by decide) (by decide)⟩

theorem validate_cases (u : User) :
    (isBlank u.Name = true → u.Validate = some "name is required") ∧
    (isBlank u.Name = false → isBlank u.Email = true →
      u.Validate = some "email is required") ∧
    (isBlank u.Name = false → isBlank u.Email = false → '@' ∉ u.Email.data →
      u.Validate = some "invalid email format") ∧
    (isBlank u.Name = false → isBlank u.Email = false → '@' ∈ u.Email.data →
      u.Validate = none) := by
  have hn := trimSpace_eq_empty_iff u.Name
  have he := trimSpace_eq_empty_iff u.Email
  have hc := contains_at_iff u.Email
  refine ⟨?_, ?_, ?_, ?_⟩
  · intro h1
    simp [User.Validate, hn.2 h1]
  · intro h1 h2
    have h1n : TrimSpace u.Name ≠ "" := fun h => by rw [hn.1 h] at h1; exact Bool.noConfusion h1
    simp [User.Validate, h1n, he.2 h2]
  · intro h1 h2 h3
    have h1n : TrimSpace u.Name ≠ "" := fun h => by rw [hn.1 h] at h1; exact Bool.noConfusion h1
    have h2n : TrimSpace u.Email ≠ "" := fun h => by rw [he.1 h] at h2; exact Bool.noConfusion h2
    have h3n : Contains u.Email "@" = false := by
      cases hcc : Contains u.Email "@" with
      | false => rfl
      | true => exact absurd (hc.1 hcc) h3
    simp [User.Validate, h1n, h2n, h3n]
  · intro h1 h2 h3
    have h1n : TrimSpace u.Name ≠ "" := fun h => by rw [hn.1 h] at h1; exact Bool.noConfusion h1
    have h2n : TrimSpace u.Email ≠ "" := fun h => by rw [he.1 h] at h2; exact Bool.noConfusion h2
    simp [User.Validate, h1n, h2n, hc.2 h3]

/-- Claim C2: `Create(name, email)` reports one outcome, chosen in this order: the error
`name is required` when the name is empty or white space only, whatever the email;
otherwise `email is required` when the email is empty or white space only; otherwise
`invalid email format` when the email holds no `@`; otherwise a user carrying exactly the
given name and email, and no error.  So `Create("", "a@b.com")`, `Create("A", "")` and
`Create("A", "nodomain")` fail with the first, second and third error. -/
theorem create_outcome_order (s : Storage) (name email : String) (now : Time) :
    (isBlank name = true →
      (s.Create name email now).1 = (none, some "name is required")) ∧
    (isBlank name = false → isBlank email = true →
      (s.Create name email now).1 = (none, some "email is required")) ∧
    (isBlank name = false → isBlank email = false → '@' ∉ email.data →
      (s.Create name email now).1 = (none, some "invalid email format")) ∧
    (isBlank name = false → isBlank email = false → '@' ∈ email.data →
      ∃ u, (s.Create name email now).1 = (some u, none) ∧ u.Name = name ∧ u.Email = email) ∧
    (s.Create "" "a@b.com" now).1 = (none, some "name is required") ∧
    (s.Create "A" "" now).1 = (none, some "email is required") ∧
    (s.Create "A" "nodomain" now).1 = (none, some "invalid email format") := by
  have key : ∀ (n e : String),
      (∀ err, User.Validate
          { ID := SprintfUser s.nextID, Name := n, Email := e, CreatedAt := now } = some err →
        (s.Create n e now).1 = (none, some err)) ∧
      (User.Validate
          { ID := SprintfUser s.nextID, Name := n, Email := e, CreatedAt := now } = none →
        (s.Create n e now).1
          = (some { ID := SprintfUser s.nextID, Name := n, Email := e, CreatedAt := now },
             none)) := by
    intro n e
    constructor
    · intro err h
      simp only [Storage.Create, h]
    · intro h
      simp only [Storage.Create, h]
  obtain ⟨v1, v2, v3, v4⟩ := validate_cases
    { ID := SprintfUser s.nextID, Name := name, Email := email, CreatedAt := now }
  refine ⟨?_, ?_, ?_, ?_, ?_, ?_, ?_⟩
  · intro h1
    exact (key name email).1 _ (v1 h1)
  · intro h1 h2
    exact (key name email).1 _ (v2 h1 h2)
  · intro h1 h2 h3
    exact (key name email).1 _ (v3 h1 h2 h3)
  · intro h1 h2 h3
    exact ⟨_, (key name email).2 (v4 h1 h2 h3), rfl, rfl⟩
  · exact (key "" "a@b.com").1 _
      ((validate_cases
        { ID := SprintfUser s.nextID, Name := "", Email := "a@b.com", CreatedAt := now }).1
        (by show isBlank "" = true; decide))
  · exact (key "A" "").1 _
      ((validate_cases
        { ID := SprintfUser s.nextID, Name := "A", Email := "", CreatedAt := now }).2.1
        (by show isBlank "A" = false; decide) (by show isBlank "" = true; decide))
  · exact (key "A" "nodomain").1 _
      ((validate_cases
        { ID := SprintfUser s.nextID, Name := "A", Email := "nodomain", CreatedAt := now }).2.2.1
        (by show isBlank "A" = false; decide) (by show isBlank "nodomain" = false; decide)
        (by show '@' ∉ "nodomain".data; decide))

theorem create_outcome_order_witness :
    isBlank " \t" = true ∧
    (NewStorage.Create " \t" "nodomain" 0).1 = (none, some "name is required") ∧
    isBlank "A" = false ∧ isBlank "a@b.com" = false ∧ '@' ∈ "a@b.com".data ∧
    (∃ u, (NewStorage.Create "A" "a@b.com" 0).1 = (some u, none) ∧
      u.Name = "A" ∧ u.Email = "a@b.com") :=
  ⟨by decide,
   (create_outcome_order NewStorage " \t" "nodomain" 0).1 (by decide),
   by decide, by decide, by decide,
   (create_outcome_order NewStorage "A" "a@b.com" 0).2.2.2.1 (by decide) (by decide)
     (by decide)⟩

/-- Claim C3: when (name, email) fails validation, `Create` returns that error and no
user, and inserts nothing: the map after the call is the map before it, so `Count`,
`List` and `GetByID` for every id answer as before the call. -/
theorem create_invalid_inserts_nothing (s : Storage) (name email : String) (now : Time)
    (id0 : String) (t0 : Time) (err : String)
    (hfail : User.Validate { ID := id0, Name := name, Email := email, CreatedAt := t0 }
      = some err) :
    (s.Create name email now).1 = (none, some err) ∧
    (s.Create name email now).2.users = s.users ∧
    (s.Create name email now).2.Count = s.Count ∧
    (∀ rt : Runtime, Storage.List rt (s.Create name email now).2 = Storage.List rt s) ∧
    (∀ id : String, (s.Create name email now).2.GetByID id = s.GetByID id) := by
  have hv : User.Validate
      { ID := SprintfUser s.nextID, Name := name, Email := email, CreatedAt := now }
      = some err := by
    simpa only [User.Validate] using hfail
  have hc : s.Create name email now = ((none, some err), s) := by
    simp only [Storage.Create, hv]
  rw [hc]
  exact ⟨rfl, rfl, rfl, fun _ => rfl, fun _ => rfl⟩

theorem create_invalid_inserts_nothing_witness :
    User.Validate { ID := "", Name := "A", Email := "nodomain", CreatedAt := 0 }
      = some "invalid email format" ∧
    ((mainStorage 1 2).Create "A" "nodomain" 3).1 = (none, some "invalid email format") ∧
    ((mainStorage 1 2).Create "A" "nodomain" 3).2.users = (mainStorage 1 2).users ∧
    ((mainStorage 1 2).Create "A" "nodomain" 3).2.Count = (mainStorage 1 2).Count ∧
    (∀ rt : Runtime, Storage.List rt ((mainStorage 1 2).Create "A" "nodomain" 3).2
      = Storage.List rt (mainStorage 1 2)) ∧
    (∀ id : String, ((mainStorage 1 2).Create "A" "nodomain" 3).2.GetByID id
      = (mainStorage 1 2).GetByID id) :=
  ⟨by decide,
   create_invalid_inserts_nothing (mainStorage 1 2) "A" "nodomain" 3 "" 0
     "invalid email format" (by decide)⟩

/-- Claim C4 as stated fails: the failed `Create("", "a@b.com")` on a new registry leaves
the counter at 1, not at 2, and the next successful `Create` gets `user_1`, the id it
gets without the failed call. -/
theorem failed_create_counter_unmoved :
    (NewStorage.Create "" "a@b.com" 5).1 = (none, some "name is required") ∧
    NewStorage.nextID = 1 ∧
    (NewStorage.Create "" "a@b.com" 5).2.nextID = 1 ∧
    (NewStorage.Create "" "a@b.com" 5).2.nextID ≠ NewStorage.nextID + 1 ∧
    ((NewStorage.Create "" "a@b.com" 5).2.Create "A" "a@b.com" 6).1
      = (some ⟨"user_1", "A", "a@b.com", 6⟩, none) ∧
    (NewStorage.Create "A" "a@b.com" 6).1 = (some ⟨"user_1", "A", "a@b.com", 6⟩, none) := by
  decide

/-- Claim C4, amended: a `Create` that fails validation leaves the id counter where it
was, so the next `Create` returns what it returns without the failed call, with the
same id. -/
theorem failed_create_keeps_counter (s : Storage) (name email : String) (now : Time)
    (id0 : String) (t0 : Time) (err : String)
    (hfail : User.Validate { ID := id0, Name := name, Email := email, CreatedAt := t0 }
      = some err)
    (name2 email2 : String) (now2 : Time) :
    (s.Create name email now).2.nextID = s.nextID ∧
    ((s.Create name email now).2.Create name2 email2 now2).1
      = (s.Create name2 email2 now2).1 := by
  have hv : User.Validate
      { ID := SprintfUser s.nextID, Name := name, Email := email, CreatedAt := now }
      = some err := by
    simpa only [User.Validate] using hfail
  have hc : s.Create name email now = ((none, some err), s) := by
    simp only [Storage.Create, hv]
  rw [hc]
  exact ⟨rfl, rfl⟩

theorem failed_create_keeps_counter_witness :
    User.Validate { ID := "", Name := " ", Email := "a@b.com", CreatedAt := 0 }
      = some "name is required" ∧
    ((mainStorage 1 2).Create " " "a@b.com" 3).2.nextID = (mainStorage 1 2).nextID ∧
    (((mainStorage 1 2).Create " " "a@b.com" 3).2.Create "Carol" "carol@example.com" 4).1
      = ((mainStorage 1 2).Create "Carol" "carol@example.com" 4).1 :=
  ⟨by decide,
   failed_create_keeps_counter (mainStorage 1 2) " " "a@b.com" 3 "" 0 "name is required"
     (by decide) "Carol" "carol@example.com" 4⟩

/-- Claim C5: after a sequence of `Create` calls on a registry from `NewStorage`, `Count`
is the number of calls that returned no error; a new registry counts 0, and a sequence
in which every call succeeds counts its length. -/
theorem count_eq_successes (calls : List CreateCall) :
    NewStorage.Count = 0 ∧
    (runCreates NewStorage calls).2.Count
      = (runCreates NewStorage calls).1.countP (fun r => r.2.isNone) ∧
    ((∀ r ∈ (runCreates NewStorage calls).1, r.2 = none) →
      (runCreates NewStorage calls).2.Count = calls.length) := by
  obtain ⟨hu, _, _, hshape⟩ := run_new_shape calls
  have hcount : (runCreates NewStorage calls).2.Count
      = (runCreates NewStorage calls).1.countP (fun r => r.2.isNone) := by
    unfold Storage.Count
    rw [hu, List.length_map, length_created _ hshape]
  have hlen : ∀ (cs : List CreateCall) (s : Storage),
      (runCreates s cs).1.length = cs.length := by
    intro cs
    induction cs with
    | nil => intro s; rfl
    | cons c cs ih => intro s; simp [runCreates, ih]
  refine ⟨rfl, hcount, ?_⟩
  intro hall
  rw [hcount, ← hlen calls NewStorage]
  apply List.countP_eq_length.2
  intro r hr
  simp [hall r hr]

theorem count_eq_successes_witness :
    (runCreates NewStorage demoCalls).1.countP (fun r => r.2.isNone) = 3 ∧
    (runCreates NewStorage demoCalls).2.Count
      = (runCreates NewStorage demoCalls).1.countP (fun r => r.2.isNone) :=
  ⟨by decide, (count_eq_successes demoCalls).2.1⟩

/-- Claim C6: for every registry state, and whatever order `range` and `sort.Slice`
choose within their contract, `List` returns every stored user exactly once and nothing
else, so as many as `Count`, and no element has a `CreatedAt` strictly earlier than an
element after it.  When the state comes from a sequence of `Create` calls whose created
users have strictly increasing time stamps, `List` returns exactly those users in
reverse order of creation. -/
theorem list_desc_by_createdAt (rt : Runtime) (hrt : rt.Conforms) (s : Storage) :
    (Storage.List rt s).Perm (s.users.map Prod.snd) ∧
    (Storage.List rt s).length = s.Count ∧
    (Storage.List rt s).Pairwise (fun a b => ¬ a.CreatedAt < b.CreatedAt) ∧
    (∀ calls : List CreateCall, (runCreates NewStorage calls).2 = s →
      (created (runCreates NewStorage calls).1).Pairwise
        (fun a b => a.CreatedAt < b.CreatedAt) →
      Storage.List rt s = (created (runCreates NewStorage calls).1).reverse) := by
  obtain ⟨hrange, hsort⟩ := hrt
  obtain ⟨hperm, hsorted⟩ :=
    hsort (fun a b => After a.CreatedAt b.CreatedAt)
      ((rt.rangeOrder s.users).foldl (fun acc e => acc ++ [e.2]) []) after_isStrictWeak
  have hvals : (rt.rangeOrder s.users).foldl (fun acc e => acc ++ [e.2]) []
      = (rt.rangeOrder s.users).map Prod.snd := by
    rw [foldl_collect_values]; rfl
  have hP : (Storage.List rt s).Perm (s.users.map Prod.snd) := by
    unfold Storage.List
    exact hperm.trans (hvals ▸ (hrange s.users).map Prod.snd)
  have hS : (Storage.List rt s).Pairwise (fun a b => ¬ a.CreatedAt < b.CreatedAt) := by
    unfold Storage.List
    refine hsorted.imp ?_
    intro a b hab
    simpa [After] using hab
  refine ⟨hP, ?_, hS, ?_⟩
  · rw [hP.length_eq, List.length_map]; rfl
  · intro calls hs hinc
    obtain ⟨hu, _, _, _⟩ := run_new_shape calls
    have hmap : s.users.map Prod.snd = created (runCreates NewStorage calls).1 := by
      rw [← hs, hu, List.map_map]
      exact List.map_id _
    apply desc_perm_unique _ _ ((hmap ▸ hP).trans (List.reverse_perm _).symm) hS
    exact List.pairwise_reverse.2 hinc

theorem list_desc_by_createdAt_witness :
    revRuntime.Conforms ∧
    (created (runCreates NewStorage demoCalls).1).Pairwise
      (fun a b => a.CreatedAt < b.CreatedAt) ∧
    (Storage.List revRuntime (runCreates NewStorage demoCalls).2).length
      = (runCreates NewStorage demoCalls).2.Count ∧
    (Storage.List revRuntime (runCreates NewStorage demoCalls).2).Pairwise
      (fun a b => ¬ a.CreatedAt < b.CreatedAt) ∧
    Storage.List revRuntime (runCreates NewStorage demoCalls).2
      = (created (runCreates NewStorage demoCalls).1).reverse ∧
    Storage.List revRuntime (runCreates NewStorage demoCalls).2
      = [⟨"user_3", "U3", "u3@example.com", 30⟩, ⟨"user_2", "U2", "u2@example.com", 20⟩,
         ⟨"user_1", "U1", "u1@example.com", 10⟩] :=
  ⟨revRuntime_conforms, by decide,
   (list_desc_by_createdAt revRuntime revRuntime_conforms
      (runCreates NewStorage demoCalls).2).2.1,
   (list_desc_by_createdAt revRuntime revRuntime_conforms
      (runCreates NewStorage demoCalls).2).2.2.1,
   (list_desc_by_createdAt revRuntime revRuntime_conforms
      (runCreates NewStorage demoCalls).2).2.2.2 demoCalls rfl (by decide),
   by decide⟩

/-- Claim C7: after a sequence of `Create` calls on a registry from `NewStorage`,
`GetByID(id)` returns a user and no error exactly when some successful call of the
sequence returned a user with that ID, and the user it returns is that one, field for
field, however many calls came after it; for every other id it returns no user and the
error `user not found`. -/
theorem getByID_iff_created (calls : List CreateCall) (id : String) :
    (∀ u : User, (runCreates NewStorage calls).2.GetByID id = (some u, none) ↔
      ((some u, none) ∈ (runCreates NewStorage calls).1 ∧ u.ID = id)) ∧
    ((∀ u : User, (some u, none) ∈ (runCreates NewStorage calls).1 → u.ID ≠ id) →
      (runCreates NewStorage calls).2.GetByID id = (none, some ("user not found: " ++ id))) ∧
    ((∃ u : User, (runCreates NewStorage calls).2.GetByID id = (some u, none)) ∨
      (runCreates NewStorage calls).2.GetByID id = (none, some ("user not found: " ++ id))) := by
  obtain ⟨hu, hnd, _, hshape⟩ := run_new_shape calls
  have hkeys : ((runCreates NewStorage calls).2.users.map Prod.fst).Nodup := by
    rw [hu, List.map_map]
    exact hnd
  have hget : ∀ u : User, mapGet (runCreates NewStorage calls).2.users id = some u ↔
      ((some u, none) ∈ (runCreates NewStorage calls).1 ∧ u.ID = id) := by
    intro u
    rw [mapGet_eq_some_iff _ _ _ hkeys, hu, List.mem_map]
    constructor
    · rintro ⟨v, hv, hvu⟩
      simp only [Prod.mk.injEq] at hvu
      obtain ⟨h1, h2⟩ := hvu
      subst h2
      exact ⟨(mem_created_iff _ _ hshape).1 hv, h1⟩
    · rintro ⟨h1, h2⟩
      exact ⟨u, (mem_created_iff _ _ hshape).2 h1, by rw [h2]⟩
  refine ⟨?_, ?_, ?_⟩
  · intro u
    rw [← hget u]
    unfold Storage.GetByID
    cases hm : mapGet (runCreates NewStorage calls).2.users id with
    | none => simp
    | some v => simp
  · intro hnone
    unfold Storage.GetByID
    cases hm : mapGet (runCreates NewStorage calls).2.users id with
    | none => rfl
    | some v =>
      have := (hget v).1 hm
      exact absurd this.2 (hnone v this.1)
  · unfold Storage.GetByID
    cases hm : mapGet (runCreates NewStorage calls).2.users id with
    | none => exact Or.inr rfl
    | some v => exact Or.inl ⟨v, rfl⟩

theorem getByID_iff_created_witness :
    ((some ⟨"user_2", "U2", "u2@example.com", 20⟩, none) : Option User × Option String)
      ∈ (runCreates NewStorage demoCalls).1 ∧
    (runCreates NewStorage demoCalls).2.GetByID "user_2"
      = (some ⟨"user_2", "U2", "u2@example.com", 20⟩, none) ∧
    (∀ u : User, (some u, none) ∈ (runCreates NewStorage []).1 → u.ID ≠ "user_1") ∧
    (runCreates NewStorage []).2.GetByID "user_1" = (none, some ("user not found: " ++ "user_1")) :=
  ⟨by decide,
   ((getByID_iff_created demoCalls "user_2").1 ⟨"user_2", "U2", "u2@example.com", 20⟩).2
     ⟨by decide, rfl⟩,
   fun u h => absurd h (by simp [runCreates]),
   (getByID_iff_created [] "user_1").2.1 (fun u h => absurd h (by simp [runCreates]))⟩

/-- Claim C8: in every state reached from `NewStorage` by `Create` calls, every user in
the map passes `Validate`, that is, its name and its email are not empty after trimming
and its email holds an `@`, and it is stored under the key equal to its own ID. -/
theorem stored_users_valid (calls : List CreateCall) (k : String) (u : User)
    (h : (k, u) ∈ (runCreates NewStorage calls).2.users) :
    u.Validate = none ∧
    TrimSpace u.Name ≠ "" ∧ TrimSpace u.Email ≠ "" ∧ '@' ∈ u.Email.data ∧
    k = u.ID := by
  obtain ⟨hu, _, hval, _⟩ := run_new_shape calls
  rw [hu, List.mem_map] at h
  obtain ⟨v, hv, hvu⟩ := h
  simp only [Prod.mk.injEq] at hvu
  obtain ⟨h1, h2⟩ := hvu
  subst h2
  have hvv := hval v hv
  obtain ⟨a, b, c⟩ := (validate_eq_none_iff v).1 hvv
  exact ⟨hvv, a, b, c, h1.symm⟩

theorem stored_users_valid_witness :
    (("user_2", ⟨"user_2", "U2", "u2@example.com", 20⟩) : String × User)
      ∈ (runCreates NewStorage demoCalls).2.users ∧
    (⟨"user_2", "U2", "u2@example.com", 20⟩ : User).Validate = none ∧
    TrimSpace (⟨"user_2", "U2", "u2@example.com", 20⟩ : User).Name ≠ "" ∧
    TrimSpace (⟨"user_2", "U2", "u2@example.com", 20⟩ : User).Email ≠ "" ∧
    '@' ∈ (⟨"user_2", "U2", "u2@example.com", 20⟩ : User).Email.data ∧
    "user_2" = (⟨"user_2", "U2", "u2@example.com", 20⟩ : User).ID :=
  ⟨by decide,
   stored_users_valid demoCalls "user_2" ⟨"user_2", "U2", "u2@example.com", 20⟩ (by decide)⟩

/-- Claim C9: on the mux that `main` serves, a request to `/users` whose method is neither
GET nor POST gets status 405 with `Method not allowed` and leaves the registry as it
was; a GET is served by the list handler and a POST by the create handler. -/
theorem users_route_by_method (env : Env) (r : Request) (s : Storage)
    (hpath : r.Path = "/users") :
    (r.Method ≠ "GET" → r.Method ≠ "POST" →
      mainMux.ServeHTTP env r s
        = ({ Status := 405, Payload := Body.text "Method not allowed" }, s)) ∧
    (r.Method = "GET" → mainMux.ServeHTTP env r s = Handler.List env r s) ∧
    (r.Method = "POST" → mainMux.ServeHTTP env r s = Handler.Create env r s) := by
  have hfind : mainMux.ServeHTTP env r s
      = (if r.Method = "GET" then Handler.List env r s
         else if r.Method = "POST" then Handler.Create env r s
         else (httpError "Method not allowed" 405, s)) := by
    simp [mainMux, Handler.RegisterRoutes, ServeMux.HandleFunc, ServeMux.ServeHTTP,
      NewServeMux, hpath]
  rw [hfind]
  refine ⟨?_, ?_, ?_⟩
  · intro h1 h2
    simp [h1, h2, httpError]
  · intro h1
    simp [h1]
  · intro h2
    have h1 : r.Method ≠ "GET" := by rw [h2]; decide
    simp [h1, h2]

theorem users_route_by_method_witness :
    (⟨"DELETE", "/users", none⟩ : Request).Path = "/users" ∧
    mainMux.ServeHTTP ⟨refRuntime, 7, false⟩ ⟨"DELETE", "/users", none⟩ (mainStorage 1 2)
      = ({ Status := 405, Payload := Body.text "Method not allowed" }, mainStorage 1 2) :=
  ⟨rfl,
   (users_route_by_method ⟨refRuntime, 7, false⟩ ⟨"DELETE", "/users", none⟩ (mainStorage 1 2)
      rfl).1 (by decide) (by decide)⟩

end Honeycomb
